import Mathlib

/-!
Verification development for `compress_docx_images.py`, a tool that
recompresses the raster images embedded in a docx package.

The Python source is shallowly embedded as follows.

* Filenames and file contents are Lean `String`s; all string operations
  (`lower().endswith`, `str.replace`, `os.path.splitext`, `startswith`) are
  re-implemented over `List Char` with the exact Python semantics
  (`str.replace` is a single left-to-right, non-overlapping pass).
  Python `lower()` is modelled on ASCII letters, which is exact for the
  extension comparisons the tool performs.
* The extracted scratch directory is an association list from path to
  `Entry`; an `Entry` is either a text file (xml markup) or an opaque
  image whose payload is a `Nat` content identifier.
* PIL decoding, transforming and encoding of one image is abstracted by
  two oracle parameters: `eSize : Entry → Nat` (the byte size that
  `os.path.getsize` reports for a given on-disk content) and
  `enc : Entry → Option Entry` (the re-encoded JPEG content produced for
  a given on-disk content, `none` meaning the per-image `try` block
  raises; the exception is modelled at decode/transform time, before the
  rename block, matching lines 55-71 of the source).  Float arithmetic in
  the resize computation is modelled as exact rational arithmetic, so
  `int(dim * (max_dimension / max(w, h)))` becomes truncating natural
  division `dim * maxDim / max w h`.
* Side effects are made explicit: disk mutations become pure updates of
  the association lists, and the externally observable per-image actions
  (`os.remove`, reference rewriting, `img.save`, the error print of the
  `except` handler) are recorded in order in an event trace.
* The media-folder check of line 34 (`os.path.exists`) is modelled
  path-faithfully: after extraction the path word/media exists exactly
  when some archive entry lies at or below it.  When the entry at
  word/media is itself a plain file, the run cannot copy through and
  cannot list the directory either; it dies with an uncaught error
  (`NotADirectoryError` from `os.listdir`, or already during extraction
  when entries below word/media/ coexist with the file), so the whole
  pipeline returns an `Option`, with `none` for an uncaught crash.
-/

/-- ASCII lower-casing of one character, the fragment of Python
`str.lower` relevant to the extension checks of line 47. -/
def asciiLower (c : Char) : Char :=
  if 'A' ≤ c ∧ c ≤ 'Z' then Char.ofNat (c.toNat + 32) else c

/-- Lower-case a character list (Python `str.lower`). -/
def lowerStr (l : List Char) : List Char := l.map asciiLower

/-- Decidable test that `pat` is a leading segment of `s`. -/
def startsWithL : List Char → List Char → Bool
  | [], _ => true
  | _ :: _, [] => false
  | p :: ps, c :: cs => p == c && startsWithL ps cs

/-- Decidable test that `pat` occurs somewhere inside `s`
(Python `pat in s`). -/
def containsL (pat : List Char) : List Char → Bool
  | [] => startsWithL pat []
  | c :: cs => startsWithL pat (c :: cs) || containsL pat cs

/-- String-level wrapper of `containsL`: does `pat` occur in `s`. -/
def pyContains (s pat : String) : Bool := containsL pat.data s.data

/-- Source line 47: `filename.lower().endswith(('.png', '.jpg', '.jpeg',
'.gif', '.bmp', '.tiff'))`, the media scanner extension filter. -/
def isImageFile (f : String) : Bool :=
  [".png", ".jpg", ".jpeg", ".gif", ".bmp", ".tiff"].any
    (fun ext => List.isSuffixOf ext.data (lowerStr f.data))

/-- Index of the last dot of `l`, if any. -/
def lastDotIdx (l : List Char) : Option Nat :=
  match l.reverse.findIdx? (fun c => c == '.') with
  | none => none
  | some j => some (l.length - 1 - j)

/-- Source line 76: `os.path.splitext(filename)[0]` for a bare filename
(no directory separators, as returned by `os.listdir`).  The extension
starts at the last dot, except that a run of leading dots does not open
an extension (`os.path.splitext` keeps `..png` whole). -/
def splitextBase (f : String) : String :=
  match lastDotIdx f.data with
  | none => f
  | some i =>
    if (f.data.take i).any (fun c => c != '.') then String.mk (f.data.take i)
    else f

/-- Source line 77: `new_filename = base_name + '.jpg'`, the target
filename of the JPEG re-encoding of `f`. -/
def targetName (f : String) : String := splitextBase f ++ ".jpg"

/-- Fuel-indexed core of Python `str.replace`: scan `s` left to right,
replacing each non-overlapping occurrence of `old` by `new` and never
rescanning replaced text.  The fuel only bounds recursion depth; one unit
is spent per consumed character, so fuel `s.length` is always enough. -/
def replaceGo (old new : List Char) : Nat → List Char → List Char
  | _, [] => []
  | 0, s => s
  | fuel + 1, c :: cs =>
    if startsWithL old (c :: cs) then
      new ++ replaceGo old new fuel ((c :: cs).drop old.length)
    else c :: replaceGo old new fuel cs

/-- Python `s.replace(old, new)`: replace every non-overlapping occurrence
of `old` in `s` by `new`, left to right.  An empty `old` matches at every
position, interleaving `new` around every character. -/
def pyReplace (s old new : String) : String :=
  if old.data = [] then
    String.mk (new.data ++ (s.data.map (fun c => c :: new.data)).flatten)
  else String.mk (replaceGo old.data new.data s.data.length s.data)

/-- One file of the extracted package: xml markup text or an opaque image
payload identified by a `Nat`. -/
inductive Entry where
  | text (s : String)
  | image (content : Nat)
deriving DecidableEq

/-- Observable per-image actions of the processing loop, in the order the
source performs them: `os.remove` (line 82), the reference rewrite
(line 84), `img.save` (line 86) and the error print of the `except`
handler (line 95). -/
inductive Event where
  | removeFile (name : String)
  | updateRefs (oldName newName : String)
  | saveFile (name : String)
  | errorLine (name : String)
deriving DecidableEq

/-- Look up a path in an association-list directory. -/
def lookupEntry : List (String × Entry) → String → Option Entry
  | [], _ => none
  | e :: t, k => if e.1 = k then some e.2 else lookupEntry t k

/-- Write a file: overwrite the entry of `k` in place, or append a fresh
entry when `k` is absent. -/
def setEntry : List (String × Entry) → String → Entry → List (String × Entry)
  | [], k, v => [(k, v)]
  | e :: t, k, v => if e.1 = k then (k, v) :: t else e :: setEntry t k v

/-- Delete the file named `k` (`os.remove`). -/
def removeEntry : List (String × Entry) → String → List (String × Entry)
  | [], _ => []
  | e :: t, k => if e.1 = k then removeEntry t k else e :: removeEntry t k

/-- Source lines 117-120: the fixed list of markup files the reference
rewriter visits. -/
def xmlFiles : List String := ["word/document.xml", "word/_rels/document.xml.rels"]

/-- Text files get every occurrence of `oldName` replaced by `newName`
(source line 131).  The source would raise a decode error on a binary
file at one of the markup paths; that pathological case is modelled as a
no-op since the per-image handler would swallow the exception anyway. -/
def rewriteEntry (oldName newName : String) : Entry → Entry
  | Entry.text s => Entry.text (pyReplace s oldName newName)
  | Entry.image c => Entry.image c

/-- Source lines 112-134, `update_image_references`: for each of the two
known markup files, if it exists, read it, replace every occurrence of
`oldName` by `newName`, and write it back; missing files are skipped
(mapping over an association list with no matching key changes
nothing). -/
def update_image_references (fs : List (String × Entry)) (oldName newName : String) :
    List (String × Entry) :=
  xmlFiles.foldl
    (fun acc p => acc.map (fun e => if e.1 = p then (e.1, rewriteEntry oldName newName e.2) else e))
    fs

/-- Running state of the per-image loop: the media directory, the other
extracted files, the two size-ledger totals and the event trace. -/
structure RunState where
  media : List (String × Entry)
  rest : List (String × Entry)
  totalOriginal : Nat
  totalCompressed : Nat
  trace : List Event
deriving DecidableEq

/-- Source lines 43-96, one iteration of the per-image loop:
skip non-image extensions (line 47); read the original size and add it to
the original total (lines 50-51); on an exception (`enc` returning
`none`) print an error and count the original size as compressed
(lines 94-96); on success, if the target name differs, delete the
original and rewrite references before saving (lines 80-86), then save
the re-encoded file and add its size to the compressed total
(lines 86-89). -/
def processFile (eSize : Entry → Nat) (enc : Entry → Option Entry)
    (st : RunState) (filename : String) : RunState :=
  if isImageFile filename = false then st
  else
    match lookupEntry st.media filename with
    | none => st
    | some c =>
      match enc c with
      | none =>
        { st with
          totalOriginal := st.totalOriginal + eSize c,
          totalCompressed := st.totalCompressed + eSize c,
          trace := st.trace ++ [Event.errorLine filename] }
      | some c' =>
        if targetName filename ≠ filename then
          { media := setEntry (removeEntry st.media filename) (targetName filename) c',
            rest := update_image_references st.rest filename (targetName filename),
            totalOriginal := st.totalOriginal + eSize c,
            totalCompressed := st.totalCompressed + eSize c',
            trace := st.trace ++
              [Event.removeFile filename,
               Event.updateRefs filename (targetName filename),
               Event.saveFile (targetName filename)] }
        else
          { st with
            media := setEntry st.media (targetName filename) c',
            totalOriginal := st.totalOriginal + eSize c,
            totalCompressed := st.totalCompressed + eSize c',
            trace := st.trace ++ [Event.saveFile (targetName filename)] }

/-- The whole per-image loop: `for filename in os.listdir(media_dir)`
over the snapshot listing `names`. -/
def runLoop (eSize : Entry → Nat) (enc : Entry → Option Entry)
    (names : List String) (st : RunState) : RunState :=
  names.foldl (processFile eSize enc) st

/-- Source line 34: `os.path.exists(media_dir)` after extraction.  A
path exists on the extracted tree exactly when some archive entry lies
at that exact path (then it is a plain file) or strictly below it (then
extraction materialized it as a directory). -/
def mediaPathExists (pkg : List (String × Entry)) : Bool :=
  pkg.any (fun e => e.1 == "word/media" || startsWithL "word/media/".data e.1.data)

/-- The pathological package shape in which the media path is occupied
by a plain file entry: `os.path.exists` is then true, but
`os.listdir(media_dir)` raises `NotADirectoryError` (and if entries
below word/media/ coexist with the file, extraction itself already
fails), so the run aborts without writing an output package. -/
def mediaIsFile (pkg : List (String × Entry)) : Bool :=
  pkg.any (fun e => e.1 == "word/media")

/-- An archive entry that `os.listdir(media_dir)` would report: directly
under `word/media/`, with no further directory separator. -/
def isMediaEntry (p : String) : Bool :=
  startsWithL "word/media/".data p.data && (p.data.drop 11).all (fun c => c != '/')

/-- The bare media filename of an entry under `word/media/`. -/
def mediaName (p : String) : String := String.mk (p.data.drop 11)

/-- Source lines 12-110, `compress_docx_images`: extract the package; if
the media path does not exist, copy the input verbatim to the output and
stop (lines 34-37, modelled as returning the input unchanged with an
empty event trace); if the media path exists but is a plain file, the
run dies with an uncaught error before producing any output (`none`);
otherwise run the per-image loop over the media listing and repackage
every remaining file.  A `some` result is the pair of the output package
and the event trace of the run. -/
def compress_docx_images (eSize : Entry → Nat) (enc : Entry → Option Entry)
    (pkg : List (String × Entry)) : Option (List (String × Entry) × List Event) :=
  if mediaPathExists pkg = false then some (pkg, [])
  else if mediaIsFile pkg then none
  else
    let media0 := (pkg.filter (fun e => isMediaEntry e.1)).map (fun e => (mediaName e.1, e.2))
    let rest0 := pkg.filter (fun e => !isMediaEntry e.1)
    let names := media0.map (fun e => e.1)
    let finalSt := runLoop eSize enc names (RunState.mk media0 rest0 0 0 [])
    some (finalSt.rest ++ finalSt.media.map (fun e => ("word/media/" ++ e.1, e.2)),
      finalSt.trace)

/-- Fresh loop state over a given media directory and remaining files. -/
def initState (media rest : List (String × Entry)) : RunState :=
  RunState.mk media rest 0 0 []

/-- Source lines 68-70: the resize computation.  When the larger
dimension exceeds `maxDim`, both dimensions are scaled by the shared
ratio `maxDim / max w h` and truncated to integers; Python `int()` on a
positive value is the floor, so over exact arithmetic each new dimension
is `dim * maxDim / max w h` in natural division. -/
def resizeDims (w h maxDim : Nat) : Nat × Nat :=
  if max w h > maxDim then (w * maxDim / max w h, h * maxDim / max w h)
  else (w, h)

/-- Modelled from the spec: the specification text says each resized
dimension is obtained by "rounding each dimension to the nearest integer
pixel"; this is round-half-up of the exact quotient `num / den`, used
only to compare the specified rounding with the source truncation. -/
def roundHalfUp (num den : Nat) : Nat := (2 * num + den) / (2 * den)

/-- A decoded PIL image as far as the color-mode step observes it: its
mode string and pixel dimensions. -/
structure PILImage where
  mode : String
  width : Nat
  height : Nat
deriving DecidableEq

/-- The action the color-mode step of lines 57-65 takes:
`pasteOnWhite canvasMode w h expandedMode maskIsLastChannel` is
`Image.new('RGB', size, (255, 255, 255))` followed by a composite of the
(possibly expanded) source using its last channel as blend mask;
`convertRGB` is a direct `img.convert('RGB')`; `keep` leaves the image
untouched. -/
inductive ColorAction where
  | pasteOnWhite (canvasMode : String) (canvasW canvasH : Nat)
      (expandedMode : String) (maskIsLastChannel : Bool)
  | convertRGB
  | keep
deriving DecidableEq

/-- Source lines 57-65: the color-mode normalization step.  Modes RGBA,
LA and P are composited onto a white RGB canvas of the same size, a
palette image being expanded to RGBA first and the blend mask being the
last channel of the expanded image; any other non-RGB mode is converted
directly; RGB is kept. -/
def convertToRGB (img : PILImage) : PILImage × ColorAction :=
  if img.mode = "RGBA" ∨ img.mode = "LA" ∨ img.mode = "P" then
    let expanded := if img.mode = "P" then "RGBA" else img.mode
    (PILImage.mk "RGB" img.width img.height,
     ColorAction.pasteOnWhite "RGB" img.width img.height expanded
       (expanded == "RGBA" || expanded == "LA"))
  else if img.mode ≠ "RGB" then (PILImage.mk "RGB" img.width img.height, ColorAction.convertRGB)
  else (img, ColorAction.keep)

/-- Source line 146: the default output path when no second argument is
given, `input_file.replace('.docx', '_compressed.docx')`. -/
def defaultOutputPath (input : String) : String :=
  pyReplace input ".docx" "_compressed.docx"

/-- Concrete size oracle for closed runs: a text file weighs its length,
an image weighs its content identifier. -/
def demoSize : Entry → Nat
  | Entry.text s => s.data.length
  | Entry.image c => c

/-- Concrete encode oracle for closed runs: re-encoding always succeeds
and produces an image whose identifier (and hence size) is the input
size plus 100. -/
def demoEncode : Entry → Option Entry :=
  fun e => some (Entry.image (demoSize e + 100))

/-- What one listing entry should add to the original-size total: its
size in the media directory as it was when the loop started, or nothing
when the extension filter rejects it. -/
def origContribution (eSize : Entry → Nat) (media0 : List (String × Entry)) (f : String) : Nat :=
  if isImageFile f = true then
    match lookupEntry media0 f with
    | some c => eSize c
    | none => 0
  else 0

/-- What one listing entry should add to the compressed-size total: the
re-encoded size on success, the original size on failure, nothing when
the extension filter rejects it. -/
def compContribution (eSize : Entry → Nat) (enc : Entry → Option Entry)
    (media0 : List (String × Entry)) (f : String) : Nat :=
  if isImageFile f = true then
    match lookupEntry media0 f with
    | some c =>
      match enc c with
      | some c' => eSize c'
      | none => eSize c
    | none => 0
  else 0

/-- Input package of the basename-collision run, media listed with the
png first. -/
def collisionPkgA : List (String × Entry) :=
  [("word/document.xml", Entry.text "X.png X.jpg"),
   ("word/media/X.png", Entry.image 1),
   ("word/media/X.jpg", Entry.image 2)]

/-- The same package with the two media entries listed in the opposite
order. -/
def collisionPkgB : List (String × Entry) :=
  [("word/document.xml", Entry.text "X.png X.jpg"),
   ("word/media/X.jpg", Entry.image 2),
   ("word/media/X.png", Entry.image 1)]

/-- Input package whose document text recreates the old filename at a
replacement boundary. -/
def boundaryPkg : List (String × Entry) :=
  [("word/document.xml", Entry.text "g.gif.gif"),
   ("word/media/g.gif", Entry.image 1)]

/-- Small directory used to exercise the reference rewriter. -/
def refsDemoFS : List (String × Entry) :=
  [("word/document.xml", Entry.text "see image1.png here"),
   ("word/styles.xml", Entry.text "image1.png")]

/-- Input package whose extracted contents have no word/media folder,
but in which the media path is occupied by a plain file. -/
def mediaFilePkg : List (String × Entry) :=
  [("word/document.xml", Entry.text "hi"), ("word/media", Entry.image 5)]

example : isImageFile "X.PNG" = true := by decide
example : isImageFile "notes.txt" = false := by decide
example : targetName "a.png" = "a.jpg" := by decide
example : targetName "..png" = "..png.jpg" := by decide
example : pyReplace "g.gif.gif" "g.gif" "g.jpg" = "g.jpg.gif" := by decide
example : defaultOutputPath "a.docx.docx" = "a_compressed.docx_compressed.docx" := by decide
example : resizeDims 2000 26 1920 = (1920, 24) := by decide
example : roundHalfUp (26 * 1920) 2000 = 25 := by decide
example : resizeDims 4000 3000 1920 = (1920, 1440) := by decide

theorem startsWithL_iff (pat s : List Char) : startsWithL pat s = true ↔ ∃ t, s = pat ++ t := by
  induction pat generalizing s with
  | nil => simp [startsWithL]
  | cons p ps ih =>
    cases s with
    | nil =>
      simp [startsWithL]
    | cons c cs =>
      constructor
      · intro h
        simp only [startsWithL, Bool.and_eq_true, beq_iff_eq] at h
        obtain ⟨hpc, hrest⟩ := h
        obtain ⟨t, ht⟩ := (ih cs).mp hrest
        exact ⟨t, by simp [hpc, ht]⟩
      · rintro ⟨t, ht⟩
        injection ht with h1 h2
        simp only [startsWithL, Bool.and_eq_true, beq_iff_eq]
        exact ⟨h1.symm, (ih cs).mpr ⟨t, h2⟩⟩

theorem containsL_iff (pat s : List Char) :
    containsL pat s = true ↔ ∃ u v, s = u ++ pat ++ v := by
  induction s with
  | nil =>
    simp only [containsL, startsWithL_iff]
    constructor
    · rintro ⟨t, ht⟩
      obtain ⟨h1, h2⟩ := List.append_eq_nil.mp ht.symm
      exact ⟨[], [], by simp [h1]⟩
    · rintro ⟨u, v, huv⟩
      obtain ⟨h1, h2⟩ := List.append_eq_nil.mp huv.symm
      obtain ⟨h3, h4⟩ := List.append_eq_nil.mp h1
      exact ⟨[], by simp [h4]⟩
  | cons c cs ih =>
    constructor
    · intro h
      simp only [containsL, Bool.or_eq_true] at h
      rcases h with h | h
      · obtain ⟨t, ht⟩ := (startsWithL_iff pat (c :: cs)).mp h
        exact ⟨[], t, by simpa using ht⟩
      · obtain ⟨u, v, huv⟩ := ih.mp h
        exact ⟨c :: u, v, by simp [huv]⟩
    · rintro ⟨u, v, huv⟩
      simp only [containsL, Bool.or_eq_true]
      cases u with
      | nil =>
        left
        exact (startsWithL_iff pat (c :: cs)).mpr ⟨v, by simpa using huv⟩
      | cons d u' =>
        right
        injection huv with h1 h2
        exact ih.mpr ⟨u', v, by simpa using h2⟩

theorem containsL_of_starts (pat s : List Char) (h : startsWithL pat s = true) :
    containsL pat s = true := by
  cases s with
  | nil => simpa [containsL] using h
  | cons c cs => simp [containsL, h]

theorem containsL_cons_of (pat : List Char) (c : Char) (cs : List Char)
    (h : containsL pat cs = true) : containsL pat (c :: cs) = true := by
  simp [containsL, h]

theorem replaceGo_nil (old new : List Char) (fuel : Nat) :
    replaceGo old new fuel [] = [] := by
  cases fuel <;> rfl

theorem replaceGo_cons (old new : List Char) (fuel : Nat) (c : Char) (cs : List Char) :
    replaceGo old new (fuel + 1) (c :: cs) =
      if startsWithL old (c :: cs) then
        new ++ replaceGo old new fuel ((c :: cs).drop old.length)
      else c :: replaceGo old new fuel cs := rfl

theorem replaceGo_contains (old new : List Char) (hold : old ≠ []) :
    ∀ fuel s, s.length ≤ fuel → containsL old s = true →
      containsL new (replaceGo old new fuel s) = true := by
  intro fuel
  induction fuel with
  | zero =>
    intro s hs hc
    have hsnil : s = [] := List.length_eq_zero.mp (Nat.le_zero.mp hs)
    subst hsnil
    obtain ⟨u, v, huv⟩ := (containsL_iff old []).mp hc
    obtain ⟨h1, -⟩ := List.append_eq_nil.mp huv.symm
    obtain ⟨-, h2⟩ := List.append_eq_nil.mp h1
    exact absurd h2 hold
  | succ f ih =>
    intro s hs hc
    cases s with
    | nil =>
      obtain ⟨u, v, huv⟩ := (containsL_iff old []).mp hc
      obtain ⟨h1, -⟩ := List.append_eq_nil.mp huv.symm
      obtain ⟨-, h2⟩ := List.append_eq_nil.mp h1
      exact absurd h2 hold
    | cons c cs =>
      rw [replaceGo_cons]
      by_cases hp : startsWithL old (c :: cs) = true
      · rw [if_pos hp]
        exact (containsL_iff new _).mpr
          ⟨[], replaceGo old new f (List.drop old.length (c :: cs)), by simp⟩
      · rw [if_neg hp]
        simp only [containsL, Bool.or_eq_true] at hc
        rcases hc with hc | hc
        · exact absurd hc hp
        · have hlen : cs.length ≤ f := by simpa using hs
          exact containsL_cons_of new c _ (ih cs hlen hc)

theorem replaceGo_id_of_not_contains (old new : List Char) :
    ∀ fuel s, s.length ≤ fuel → containsL old s = false →
      replaceGo old new fuel s = s := by
  intro fuel
  induction fuel with
  | zero =>
    intro s hs _
    have hsnil : s = [] := List.length_eq_zero.mp (Nat.le_zero.mp hs)
    subst hsnil
    exact replaceGo_nil old new 0
  | succ f ih =>
    intro s hs hc
    cases s with
    | nil => exact replaceGo_nil old new (f + 1)
    | cons c cs =>
      rw [replaceGo_cons]
      simp only [containsL, Bool.or_eq_false_iff] at hc
      rw [if_neg (by simp [hc.1])]
      have hlen : cs.length ≤ f := by simpa using hs
      rw [ih cs hlen hc.2]

theorem replaceGo_tail_only (old new : List Char) (hold : old ≠ []) :
    ∀ (p : List Char) (fuel : Nat), (p ++ old).length ≤ fuel →
      containsL old (p ++ old.dropLast) = false →
      replaceGo old new fuel (p ++ old) = p ++ new := by
  intro p
  induction p with
  | nil =>
    intro fuel hf hc
    cases fuel with
    | zero =>
      simp only [List.nil_append, List.length] at hf
      exact absurd (List.length_eq_zero.mp (Nat.le_zero.mp hf)) hold
    | succ f =>
      obtain ⟨o, os, hoe⟩ := List.exists_cons_of_ne_nil hold
      simp only [List.nil_append]
      rw [hoe, replaceGo_cons, if_pos, ← hoe, List.drop_length, replaceGo_nil,
        List.append_nil]
      rw [← hoe]
      exact (startsWithL_iff old old).mpr ⟨[], (List.append_nil old).symm⟩
  | cons d p' ih =>
    intro fuel hf hc
    cases fuel with
    | zero =>
      simp only [List.cons_append, List.length] at hf
      omega
    | succ f =>
      have hcons : (d :: p') ++ old = d :: (p' ++ old) := rfl
      rw [hcons, replaceGo_cons]
      have hnp : ¬ startsWithL old (d :: (p' ++ old)) = true := by
        intro hp
        obtain ⟨t, ht⟩ := (startsWithL_iff old _).mp hp
        rcases List.eq_nil_or_concat t with rfl | ⟨t', x, rfl⟩
        · have hlen := congrArg List.length ht
          simp [List.length_append] at hlen
          omega
        · rw [List.concat_eq_append] at ht
          have hce : old.dropLast ++ [old.getLast hold] = old :=
            List.dropLast_append_getLast hold
          have hr : d :: (p' ++ old) =
              (d :: (p' ++ old.dropLast)) ++ [old.getLast hold] := by
            conv_lhs => rw [← hce]
            simp
          have hall : (old ++ t') ++ [x] =
              (d :: (p' ++ old.dropLast)) ++ [old.getLast hold] := by
            rw [List.append_assoc]
            exact ht.symm.trans hr
          obtain ⟨heq, -⟩ := List.append_inj' hall (by simp)
          have hocc : containsL old (d :: (p' ++ old.dropLast)) = true :=
            containsL_of_starts old _ ((startsWithL_iff old _).mpr ⟨t', heq.symm⟩)
          have hc' : containsL old (d :: (p' ++ old.dropLast)) = false := by
            simpa using hc
          rw [hocc] at hc'
          exact Bool.noConfusion hc'
      rw [if_neg hnp]
      have hf' : (p' ++ old).length ≤ f := by
        simp only [List.cons_append, List.length] at hf
        simpa using Nat.lt_succ_iff.mp (Nat.lt_of_lt_of_le (Nat.lt_succ_self _) hf)
      have hc' : containsL old (p' ++ old.dropLast) = false := by
        have := hc
        simp only [List.cons_append, containsL, Bool.or_eq_false_iff] at this
        exact this.2
      rw [ih f hf' hc']
      rfl

theorem lookupEntry_setEntry_self (fs : List (String × Entry)) (k : String) (v : Entry) :
    lookupEntry (setEntry fs k v) k = some v := by
  induction fs with
  | nil => simp [setEntry, lookupEntry]
  | cons e t ih =>
    by_cases h : e.1 = k
    · simp [setEntry, lookupEntry, h]
    · simp [setEntry, lookupEntry, h, ih]

theorem lookupEntry_setEntry_ne (fs : List (String × Entry)) (k q : String) (v : Entry)
    (h : q ≠ k) : lookupEntry (setEntry fs k v) q = lookupEntry fs q := by
  induction fs with
  | nil => simp [setEntry, lookupEntry, Ne.symm h]
  | cons e t ih =>
    by_cases he : e.1 = k
    · simp [setEntry, lookupEntry, he, Ne.symm h, h]
    · by_cases heq : e.1 = q
      · simp [setEntry, lookupEntry, he, heq, h]
      · simp [setEntry, lookupEntry, he, heq, ih]

theorem lookupEntry_removeEntry_ne (fs : List (String × Entry)) (k q : String)
    (h : q ≠ k) : lookupEntry (removeEntry fs k) q = lookupEntry fs q := by
  induction fs with
  | nil => simp [removeEntry, lookupEntry]
  | cons e t ih =>
    by_cases he : e.1 = k
    · have heq : ¬ e.1 = q := by rw [he]; exact Ne.symm h
      simp [removeEntry, lookupEntry, he, heq, h, Ne.symm h, ih]
    · by_cases heq : e.1 = q
      · simp [removeEntry, lookupEntry, he, heq, h, Ne.symm h]
      · simp [removeEntry, lookupEntry, he, heq, ih]

theorem lookupEntry_mapUpdate (fs : List (String × Entry)) (p q : String)
    (g : Entry → Entry) :
    lookupEntry (fs.map (fun e => if e.1 = p then (e.1, g e.2) else e)) q =
      if q = p then (lookupEntry fs q).map g else lookupEntry fs q := by
  induction fs with
  | nil => simp [lookupEntry]
  | cons e t ih =>
    by_cases hep : e.1 = p
    · by_cases heq : e.1 = q
      · have hqp : q = p := heq ▸ hep
        simp [lookupEntry, hep, heq, hqp]
      · have hpq : ¬ p = q := fun hh => heq (hep.trans hh)
        have hqp : ¬ q = p := fun hh => hpq hh.symm
        simp [lookupEntry, hep, heq, hpq, hqp, ih]
    · by_cases heq : e.1 = q
      · have hqp : ¬ q = p := fun hh => hep (heq.trans hh)
        simp [lookupEntry, hep, heq, hqp]
      · simp [lookupEntry, hep, heq, ih]

theorem lookupEntry_update_refs (fs : List (String × Entry)) (oldN newN q : String) :
    lookupEntry (update_image_references fs oldN newN) q =
      if q ∈ xmlFiles then (lookupEntry fs q).map (rewriteEntry oldN newN)
      else lookupEntry fs q := by
  have h1 : update_image_references fs oldN newN =
      ((fs.map fun e =>
          if e.1 = "word/document.xml" then (e.1, rewriteEntry oldN newN e.2) else e).map
        fun e =>
          if e.1 = "word/_rels/document.xml.rels" then (e.1, rewriteEntry oldN newN e.2)
          else e) := rfl
  rw [h1, lookupEntry_mapUpdate, lookupEntry_mapUpdate]
  by_cases hd : q = "word/document.xml"
  · have hne : ¬ ("word/document.xml" : String) = "word/_rels/document.xml.rels" := by decide
    subst hd
    simp [xmlFiles, hne]
  · by_cases hr : q = "word/_rels/document.xml.rels"
    · subst hr
      simp [xmlFiles, hd]
    · simp [xmlFiles, hd, hr]

theorem processFile_not_image (eSize : Entry → Nat) (enc : Entry → Option Entry)
    (st : RunState) (f : String) (h : isImageFile f = false) :
    processFile eSize enc st f = st := by
  simp [processFile, h]

theorem processFile_missing (eSize : Entry → Nat) (enc : Entry → Option Entry)
    (st : RunState) (f : String) (h1 : isImageFile f = true)
    (h2 : lookupEntry st.media f = none) :
    processFile eSize enc st f = st := by
  simp [processFile, h1, h2]

theorem processFile_err (eSize : Entry → Nat) (enc : Entry → Option Entry)
    (st : RunState) (f : String) (c : Entry) (h1 : isImageFile f = true)
    (h2 : lookupEntry st.media f = some c) (h3 : enc c = none) :
    processFile eSize enc st f =
      { st with
        totalOriginal := st.totalOriginal + eSize c,
        totalCompressed := st.totalCompressed + eSize c,
        trace := st.trace ++ [Event.errorLine f] } := by
  simp [processFile, h1, h2, h3]

theorem processFile_rename (eSize : Entry → Nat) (enc : Entry → Option Entry)
    (st : RunState) (f : String) (c c' : Entry) (h1 : isImageFile f = true)
    (h2 : lookupEntry st.media f = some c) (h3 : enc c = some c')
    (h4 : targetName f ≠ f) :
    processFile eSize enc st f =
      { media := setEntry (removeEntry st.media f) (targetName f) c',
        rest := update_image_references st.rest f (targetName f),
        totalOriginal := st.totalOriginal + eSize c,
        totalCompressed := st.totalCompressed + eSize c',
        trace := st.trace ++
          [Event.removeFile f, Event.updateRefs f (targetName f),
           Event.saveFile (targetName f)] } := by
  simp [processFile, h1, h2, h3, h4]

theorem processFile_keepName (eSize : Entry → Nat) (enc : Entry → Option Entry)
    (st : RunState) (f : String) (c c' : Entry) (h1 : isImageFile f = true)
    (h2 : lookupEntry st.media f = some c) (h3 : enc c = some c')
    (h4 : targetName f = f) :
    processFile eSize enc st f =
      { st with
        media := setEntry st.media f c',
        totalOriginal := st.totalOriginal + eSize c,
        totalCompressed := st.totalCompressed + eSize c',
        trace := st.trace ++ [Event.saveFile f] } := by
  simp [processFile, h1, h2, h3, h4]

theorem runLoop_totals (eSize : Entry → Nat) (enc : Entry → Option Entry)
    (media0 : List (String × Entry)) :
    ∀ (names : List String) (st : RunState),
      names.Nodup →
      (∀ f ∈ names, lookupEntry st.media f = lookupEntry media0 f) →
      (∀ f ∈ names, isImageFile f = true → targetName f = f ∨ targetName f ∉ names) →
      (runLoop eSize enc names st).totalOriginal =
          st.totalOriginal + (names.map (origContribution eSize media0)).sum ∧
        (runLoop eSize enc names st).totalCompressed =
          st.totalCompressed + (names.map (compContribution eSize enc media0)).sum := by
  intro names
  induction names with
  | nil =>
    intro st _ _ _
    simp [runLoop]
  | cons f rest ih =>
    intro st hnd hpres hcol
    have hfmem : f ∈ f :: rest := List.mem_cons_self f rest
    have hf : lookupEntry st.media f = lookupEntry media0 f := hpres f hfmem
    obtain ⟨hfnotin, hndr⟩ := List.nodup_cons.mp hnd
    have hcol' : ∀ g ∈ rest, isImageFile g = true →
        targetName g = g ∨ targetName g ∉ rest := by
      intro g hg hgi
      rcases hcol g (List.mem_cons_of_mem f hg) hgi with hh | hh
      · exact Or.inl hh
      · exact Or.inr fun hmem => hh (List.mem_cons_of_mem f hmem)
    have hgne : ∀ g ∈ rest, g ≠ f := by
      intro g hg hgf
      exact hfnotin (hgf ▸ hg)
    have hloop : runLoop eSize enc (f :: rest) st =
        runLoop eSize enc rest (processFile eSize enc st f) := rfl
    rw [hloop]
    cases hacc : isImageFile f with
    | false =>
      rw [processFile_not_image eSize enc st f hacc]
      obtain ⟨h1, h2⟩ := ih st hndr
        (fun g hg => hpres g (List.mem_cons_of_mem f hg)) hcol'
      refine ⟨?_, ?_⟩
      · rw [h1, List.map_cons, List.sum_cons]
        simp [origContribution, hacc]
      · rw [h2, List.map_cons, List.sum_cons]
        simp [compContribution, hacc]
    | true =>
      cases hlc : lookupEntry media0 f with
      | none =>
        have hmiss : lookupEntry st.media f = none := hf.trans hlc
        rw [processFile_missing eSize enc st f hacc hmiss]
        obtain ⟨h1, h2⟩ := ih st hndr
          (fun g hg => hpres g (List.mem_cons_of_mem f hg)) hcol'
        refine ⟨?_, ?_⟩
        · rw [h1, List.map_cons, List.sum_cons]
          simp [origContribution, hacc, hlc]
        · rw [h2, List.map_cons, List.sum_cons]
          simp [compContribution, hacc, hlc]
      | some c =>
        have hsc : lookupEntry st.media f = some c := by rw [hf, hlc]
        cases he : enc c with
        | none =>
          have hstep := processFile_err eSize enc st f c hacc hsc he
          have hpres' : ∀ g ∈ rest,
              lookupEntry (processFile eSize enc st f).media g = lookupEntry media0 g := by
            intro g hg
            rw [hstep]
            exact hpres g (List.mem_cons_of_mem f hg)
          obtain ⟨h1, h2⟩ := ih (processFile eSize enc st f) hndr hpres' hcol'
          refine ⟨?_, ?_⟩
          · rw [h1, hstep, List.map_cons, List.sum_cons]
            simp only [origContribution, hacc, hlc, if_pos]
            omega
          · rw [h2, hstep, List.map_cons, List.sum_cons]
            simp only [compContribution, hacc, hlc, he, if_pos]
            omega
        | some c' =>
          by_cases ht : targetName f = f
          · have hstep := processFile_keepName eSize enc st f c c' hacc hsc he ht
            have hpres' : ∀ g ∈ rest,
                lookupEntry (processFile eSize enc st f).media g = lookupEntry media0 g := by
              intro g hg
              rw [hstep]
              show lookupEntry (setEntry st.media f c') g = lookupEntry media0 g
              rw [lookupEntry_setEntry_ne st.media f g c' (hgne g hg)]
              exact hpres g (List.mem_cons_of_mem f hg)
            obtain ⟨h1, h2⟩ := ih (processFile eSize enc st f) hndr hpres' hcol'
            refine ⟨?_, ?_⟩
            · rw [h1, hstep, List.map_cons, List.sum_cons]
              simp only [origContribution, hacc, hlc, if_pos]
              omega
            · rw [h2, hstep, List.map_cons, List.sum_cons]
              simp only [compContribution, hacc, hlc, he, if_pos]
              omega
          · have hstep := processFile_rename eSize enc st f c c' hacc hsc he ht
            have htn : targetName f ∉ f :: rest := by
              rcases hcol f hfmem hacc with hh | hh
              · exact absurd hh ht
              · exact hh
            have hpres' : ∀ g ∈ rest,
                lookupEntry (processFile eSize enc st f).media g = lookupEntry media0 g := by
              intro g hg
              rw [hstep]
              show lookupEntry (setEntry (removeEntry st.media f) (targetName f) c') g =
                lookupEntry media0 g
              have hgtn : g ≠ targetName f := by
                intro hh
                exact htn (List.mem_cons_of_mem f (hh ▸ hg))
              rw [lookupEntry_setEntry_ne _ _ _ _ hgtn,
                lookupEntry_removeEntry_ne _ _ _ (hgne g hg)]
              exact hpres g (List.mem_cons_of_mem f hg)
            obtain ⟨h1, h2⟩ := ih (processFile eSize enc st f) hndr hpres' hcol'
            refine ⟨?_, ?_⟩
            · rw [h1, hstep, List.map_cons, List.sum_cons]
              simp only [origContribution, hacc, hlc, if_pos]
              omega
            · rw [h2, hstep, List.map_cons, List.sum_cons]
              simp only [compContribution, hacc, hlc, he, if_pos]
              omega

/-- C1, corrected.  The source truncates (`int()` is the floor on
positive values) rather than rounding each scaled dimension to the
nearest integer.  What holds: an image whose larger dimension does not
exceed `maxDim` is not resized; otherwise both dimensions are scaled by
the single shared ratio `maxDim / max w h`, each output dimension is the
floor of the exact scaled value (so it is within one pixel below it),
the larger output dimension equals `maxDim` exactly, and the aspect
ratio is preserved up to that rounding error
(`|out_w * h - out_h * w| < max w h`). -/
theorem c1_resize (w h maxDim : Nat) :
    (max w h ≤ maxDim → resizeDims w h maxDim = (w, h)) ∧
    (maxDim < max w h →
      max (resizeDims w h maxDim).1 (resizeDims w h maxDim).2 = maxDim ∧
      ((resizeDims w h maxDim).1 * max w h ≤ w * maxDim ∧
        w * maxDim < ((resizeDims w h maxDim).1 + 1) * max w h) ∧
      ((resizeDims w h maxDim).2 * max w h ≤ h * maxDim ∧
        h * maxDim < ((resizeDims w h maxDim).2 + 1) * max w h) ∧
      ((resizeDims w h maxDim).1 * h < (resizeDims w h maxDim).2 * w + max w h ∧
        (resizeDims w h maxDim).2 * w < (resizeDims w h maxDim).1 * h + max w h)) := by
  constructor
  · intro hle
    simp only [resizeDims]
    rw [if_neg (by omega)]
  · intro hgt
    have hM : 0 < max w h := by omega
    simp only [resizeDims]
    rw [if_pos hgt]
    dsimp only
    set M := max w h with hMdef
    set q1 := w * maxDim / M with hq1
    set q2 := h * maxDim / M with hq2
    have hw : w ≤ M := le_max_left w h
    have hh : h ≤ M := le_max_right w h
    have hd1 := Nat.div_add_mod (w * maxDim) M
    have hm1 := Nat.mod_lt (w * maxDim) hM
    have hd2 := Nat.div_add_mod (h * maxDim) M
    have hm2 := Nat.mod_lt (h * maxDim) hM
    have b1 : q1 * M ≤ w * maxDim := by
      calc q1 * M = M * q1 := Nat.mul_comm _ _
        _ ≤ M * q1 + w * maxDim % M := Nat.le_add_right _ _
        _ = w * maxDim := hd1
    have b2 : w * maxDim < (q1 + 1) * M := by
      calc w * maxDim = M * q1 + w * maxDim % M := hd1.symm
        _ < M * q1 + M := Nat.add_lt_add_left hm1 _
        _ = (q1 + 1) * M := by ring
    have b3 : q2 * M ≤ h * maxDim := by
      calc q2 * M = M * q2 := Nat.mul_comm _ _
        _ ≤ M * q2 + h * maxDim % M := Nat.le_add_right _ _
        _ = h * maxDim := hd2
    have b4 : h * maxDim < (q2 + 1) * M := by
      calc h * maxDim = M * q2 + h * maxDim % M := hd2.symm
        _ < M * q2 + M := Nat.add_lt_add_left hm2 _
        _ = (q2 + 1) * M := by ring
    have hqle : ∀ d : Nat, d ≤ M → d * maxDim / M ≤ maxDim := by
      intro d hd
      calc d * maxDim / M ≤ M * maxDim / M :=
            Nat.div_le_div_right (mul_le_mul_right' hd maxDim)
        _ = maxDim := Nat.mul_div_cancel_left maxDim hM
    have hMcase : M = w ∨ M = h := by
      rw [hMdef]
      rcases Nat.le_total w h with hc | hc
      · right; exact Nat.max_eq_right hc
      · left; exact Nat.max_eq_left hc
    refine ⟨?_, ⟨b1, b2⟩, ⟨b3, b4⟩, ?_, ?_⟩
    · rcases hMcase with hMw | hMh
      · have hq1eq : q1 = maxDim := by
          rw [hq1, ← hMw]
          exact Nat.mul_div_cancel_left maxDim hM
        rw [hq1eq]
        exact Nat.max_eq_left (hqle h hh)
      · have hq2eq : q2 = maxDim := by
          rw [hq2, ← hMh]
          exact Nat.mul_div_cancel_left maxDim hM
        rw [hq2eq]
        exact Nat.max_eq_right (hqle w hw)
    · rcases Nat.eq_zero_or_pos w with hw0 | hwpos
      · have hq10 : q1 = 0 := by rw [hq1, hw0]; simp
        rw [hq10, hw0]
        simpa using hM
      · have f1 : q1 * M * h ≤ w * maxDim * h := mul_le_mul_right' b1 h
        have f2 : h * maxDim * w < (q2 + 1) * M * w := mul_lt_mul_of_pos_right b4 hwpos
        have f3 : q1 * h * M < (q2 + 1) * w * M := by
          calc q1 * h * M = q1 * M * h := by ring
            _ ≤ w * maxDim * h := f1
            _ = h * maxDim * w := by ring
            _ < (q2 + 1) * M * w := f2
            _ = (q2 + 1) * w * M := by ring
        have f4 : q1 * h < (q2 + 1) * w := lt_of_mul_lt_mul_right f3 (Nat.zero_le M)
        calc q1 * h < (q2 + 1) * w := f4
          _ = q2 * w + w := by ring
          _ ≤ q2 * w + M := Nat.add_le_add_left hw _
    · rcases Nat.eq_zero_or_pos h with hh0 | hhpos
      · have hq20 : q2 = 0 := by rw [hq2, hh0]; simp
        rw [hq20, hh0]
        simpa using hM
      · have f1 : q2 * M * w ≤ h * maxDim * w := mul_le_mul_right' b3 w
        have f2 : w * maxDim * h < (q1 + 1) * M * h := mul_lt_mul_of_pos_right b2 hhpos
        have f3 : q2 * w * M < (q1 + 1) * h * M := by
          calc q2 * w * M = q2 * M * w := by ring
            _ ≤ h * maxDim * w := f1
            _ = w * maxDim * h := by ring
            _ < (q1 + 1) * M * h := f2
            _ = (q1 + 1) * h * M := by ring
        have f4 : q2 * w < (q1 + 1) * h := lt_of_mul_lt_mul_right f3 (Nat.zero_le M)
        calc q2 * w < (q1 + 1) * h := f4
          _ = q1 * h + h := by ring
          _ ≤ q1 * h + M := Nat.add_le_add_left hh _

/-- C1 witness: the spec scenario, a 4000 by 3000 image with the default
maximum dimension 1920, resizes so that its larger output dimension is
exactly 1920 (the code yields (1920, 1440)). -/
theorem c1_resize_witness :
    1920 < max 4000 3000 ∧
      max (resizeDims 4000 3000 1920).1 (resizeDims 4000 3000 1920).2 = 1920 :=
  ⟨by decide, ((c1_resize 4000 3000 1920).2 (by decide)).1⟩

/-- C1 counterexample: for a 2000 by 26 image with maximum dimension
1920 the exact scaled second dimension is 24.96; rounding to the nearest
integer as the claim states gives 25, but the code truncates and
produces 24. -/
theorem c1_counterexample :
    resizeDims 2000 26 1920 = (1920, 24) ∧
      roundHalfUp (26 * 1920) 2000 = 25 ∧ (24 : Nat) ≠ 25 := by
  refine ⟨by decide, by decide, by decide⟩

/-- C2, confirmed: modes RGBA and LA are pasted onto a white RGB canvas
of the same dimensions with the last channel as mask; mode P is expanded
to RGBA first and then pasted the same way; any other non-RGB mode is
converted directly; RGB is kept; and in all cases the result is an RGB
image with unchanged dimensions. -/
theorem c2_color_mode (img : PILImage) :
    ((img.mode = "RGBA" ∨ img.mode = "LA") →
      convertToRGB img =
        (PILImage.mk "RGB" img.width img.height,
         ColorAction.pasteOnWhite "RGB" img.width img.height img.mode true)) ∧
    (img.mode = "P" →
      convertToRGB img =
        (PILImage.mk "RGB" img.width img.height,
         ColorAction.pasteOnWhite "RGB" img.width img.height "RGBA" true)) ∧
    (img.mode ≠ "RGBA" → img.mode ≠ "LA" → img.mode ≠ "P" → img.mode ≠ "RGB" →
      convertToRGB img =
        (PILImage.mk "RGB" img.width img.height, ColorAction.convertRGB)) ∧
    (img.mode = "RGB" → convertToRGB img = (img, ColorAction.keep)) ∧
    ((convertToRGB img).1.mode = "RGB" ∧ (convertToRGB img).1.width = img.width ∧
      (convertToRGB img).1.height = img.height) := by
  cases img with
  | mk m wd ht =>
    refine ⟨?_, ?_, ?_, ?_, ?_⟩
    · rintro (hm | hm) <;> subst hm <;> rfl
    · intro hm
      subst hm
      rfl
    · intro h1 h2 h3 h4
      simp [convertToRGB, h1, h2, h3, h4]
    · intro hm
      subst hm
      rfl
    · simp only [convertToRGB]
      split_ifs with h1 h2 <;> simp_all

/-- C2 witness: a palette-mode image is expanded to RGBA and pasted onto
a white RGB canvas of its own dimensions. -/
theorem c2_color_mode_witness :
    convertToRGB (PILImage.mk "P" 7 9) =
      (PILImage.mk "RGB" 7 9, ColorAction.pasteOnWhite "RGB" 7 9 "RGBA" true) :=
  (c2_color_mode (PILImage.mk "P" 7 9)).2.1 rfl

theorem strData_append (a b : String) : (a ++ b).data = a.data ++ b.data := by
  cases a
  cases b
  rfl

theorem strMk_append (a : String) (l : List Char) :
    a ++ String.mk l = String.mk (a.data ++ l) := by
  cases a
  rfl

/-- C3, amended.  The rewriter touches exactly the two fixed markup
files, skips a missing one, and rewrites each existing one to the
left-to-right non-overlapping replacement of the old filename by the new
one; afterwards the file contains the new filename whenever it contained
the old one.  The original claim that zero occurrences of the old
filename remain is false: a replacement boundary can recreate the old
name (see the counterexample). -/
theorem c3_reference_rewrite (fs : List (String × Entry)) (oldN newN : String) :
    (∀ q, q ∉ xmlFiles →
      lookupEntry (update_image_references fs oldN newN) q = lookupEntry fs q) ∧
    (∀ q ∈ xmlFiles, lookupEntry fs q = none →
      lookupEntry (update_image_references fs oldN newN) q = none) ∧
    (∀ q ∈ xmlFiles, ∀ s : String, lookupEntry fs q = some (Entry.text s) →
      lookupEntry (update_image_references fs oldN newN) q =
        some (Entry.text (pyReplace s oldN newN))) ∧
    (∀ s : String, oldN.data ≠ [] → pyContains s oldN = true →
      pyContains (pyReplace s oldN newN) newN = true) := by
  refine ⟨?_, ?_, ?_, ?_⟩
  · intro q hq
    rw [lookupEntry_update_refs, if_neg hq]
  · intro q hq hnone
    rw [lookupEntry_update_refs, if_pos hq, hnone]
    rfl
  · intro q hq s hs
    rw [lookupEntry_update_refs, if_pos hq, hs]
    rfl
  · intro s hold hc
    have hx : pyReplace s oldN newN =
        String.mk (replaceGo oldN.data newN.data s.data.length s.data) := by
      simp only [pyReplace]
      rw [if_neg hold]
    rw [hx]
    show containsL newN.data (replaceGo oldN.data newN.data s.data.length s.data) = true
    exact replaceGo_contains oldN.data newN.data hold s.data.length s.data (le_refl _) hc

/-- C3 witness: a file outside the fixed list is untouched, the document
body is rewritten to the replaced text, and the rewritten text contains
the new filename. -/
theorem c3_reference_rewrite_witness :
    lookupEntry (update_image_references refsDemoFS "image1.png" "image1.jpg")
        "word/styles.xml" = lookupEntry refsDemoFS "word/styles.xml" ∧
      lookupEntry (update_image_references refsDemoFS "image1.png" "image1.jpg")
        "word/document.xml" =
        some (Entry.text (pyReplace "see image1.png here" "image1.png" "image1.jpg")) ∧
      pyContains (pyReplace "see image1.png here" "image1.png" "image1.jpg")
        "image1.jpg" = true := by
  have hthm := c3_reference_rewrite refsDemoFS "image1.png" "image1.jpg"
  exact ⟨hthm.1 "word/styles.xml" (by decide),
    hthm.2.2.1 "word/document.xml" (by decide) "see image1.png here" (by decide),
    hthm.2.2.2 "see image1.png here" (by decide) (by decide)⟩

/-- C3 counterexample: renaming the accepted media file g.gif to g.jpg
in a package whose document text is g.gif.gif leaves the document text
g.jpg.gif, which still contains the old filename g.gif, so the markup
does not end with zero occurrences of the old name. -/
theorem c3_counterexample :
    (compress_docx_images demoSize demoEncode boundaryPkg).map Prod.fst =
        some [("word/document.xml", Entry.text "g.jpg.gif"),
          ("word/media/g.jpg", Entry.image 101)] ∧
      pyContains "g.jpg.gif" "g.gif" = true := by
  refine ⟨by decide, by decide⟩

/-- C4, amended.  A package with no entry at or under the media path
(so `os.path.exists` is false on the extracted tree) is passed through
unchanged: the run terminates successfully with an output equal to the
input package and performs no per-image action at all (empty event
trace).  The scope cannot be widened to every package without a
word/media folder: when a plain file occupies the media path the
extracted contents still have no media folder, yet the run aborts with
an uncaught error instead of copying through (see the
counterexample). -/
theorem c4_copy_through (eSize : Entry → Nat) (enc : Entry → Option Entry)
    (pkg : List (String × Entry)) (h : mediaPathExists pkg = false) :
    compress_docx_images eSize enc pkg = some (pkg, []) := by
  simp [compress_docx_images, h]

/-- C4 witness: an image-free package is returned byte-identical with no
processing events. -/
theorem c4_copy_through_witness :
    compress_docx_images demoSize demoEncode
        [("word/document.xml", Entry.text "hello")] =
      some ([("word/document.xml", Entry.text "hello")], []) :=
  c4_copy_through demoSize demoEncode _ (by decide)

/-- C4 counterexample: the package whose media path is a plain file has
no word/media folder in its extracted contents (no entry lies below the
path), yet the run does not copy the input through to the output: it
raises an uncaught `NotADirectoryError` in `os.listdir` (modelled as
`none`) and in particular does not terminate successfully with the
input package. -/
theorem c4_counterexample :
    mediaFilePkg.any (fun e => startsWithL "word/media/".data e.1.data) = false ∧
      compress_docx_images demoSize demoEncode mediaFilePkg = none ∧
      compress_docx_images demoSize demoEncode mediaFilePkg ≠ some (mediaFilePkg, []) := by
  refine ⟨by decide, by decide, by decide⟩

/-- C8, amended.  The default output path replaces every occurrence of
the substring .docx in the input path by _compressed.docx.  When .docx
occurs exactly once, as the final extension, this is the input path with
its extension replaced (the claimed behaviour); an input without .docx
anywhere is used unchanged, with no suffix added.  The original claim is
false for paths with further .docx occurrences (see the
counterexample). -/
theorem c8_default_output :
    (∀ p : String, pyContains (p ++ ".doc") ".docx" = false →
      defaultOutputPath (p ++ ".docx") = p ++ "_compressed.docx") ∧
    (∀ s : String, pyContains s ".docx" = false → defaultOutputPath s = s) := by
  have ho : (".docx" : String).data ≠ [] := by decide
  constructor
  · intro p hp
    have hdata : (p ++ ".docx").data = p.data ++ (".docx" : String).data :=
      strData_append p ".docx"
    have hx : defaultOutputPath (p ++ ".docx") =
        String.mk (replaceGo (".docx" : String).data ("_compressed.docx" : String).data
          (p ++ ".docx").data.length (p ++ ".docx").data) := by
      simp only [defaultOutputPath, pyReplace]
      rw [if_neg ho]
    rw [hx, hdata]
    have hcl : containsL (".docx" : String).data
        (p.data ++ (".docx" : String).data.dropLast) = false := by
      have hdl : (".docx" : String).data.dropLast = (".doc" : String).data := by decide
      rw [hdl]
      have hp' := hp
      rw [show pyContains (p ++ ".doc") ".docx" =
          containsL (".docx" : String).data (p.data ++ (".doc" : String).data) by
        rw [pyContains, strData_append]] at hp'
      exact hp'
    rw [replaceGo_tail_only (".docx" : String).data ("_compressed.docx" : String).data
      (by decide) p.data (p.data ++ (".docx" : String).data).length (le_refl _) hcl]
    rw [strMk_append]
  · intro s hs
    have hx : defaultOutputPath s =
        String.mk (replaceGo (".docx" : String).data ("_compressed.docx" : String).data
          s.data.length s.data) := by
      simp only [defaultOutputPath, pyReplace]
      rw [if_neg ho]
    rw [hx,
      replaceGo_id_of_not_contains (".docx" : String).data ("_compressed.docx" : String).data
        s.data.length s.data (le_refl _) hs]

/-- C8 witness: for an input whose only .docx occurrence is its final
extension, the default output is the input with that extension replaced
by _compressed.docx. -/
theorem c8_default_output_witness :
    pyContains ("report" ++ ".doc") ".docx" = false ∧
      defaultOutputPath ("report" ++ ".docx") = "report" ++ "_compressed.docx" :=
  ⟨by decide, c8_default_output.1 "report" (by decide)⟩

/-- C8 counterexample: for the input a.docx.docx replacing only the
extension would give a.docx_compressed.docx, but the code replaces every
occurrence and yields a_compressed.docx_compressed.docx. -/
theorem c8_counterexample :
    defaultOutputPath "a.docx.docx" = "a_compressed.docx_compressed.docx" ∧
      "a_compressed.docx_compressed.docx" ≠ "a.docx_compressed.docx" := by
  refine ⟨by decide, by decide⟩

/-- C5, amended.  Provided no accepted media file has the name of
another accepted file's target filename (no basename collision, compare
the collision claim), every listing entry contributes to each total
exactly once: the original total receives its original byte size, the
compressed total receives the re-encoded size on success and the
original size on failure, and files rejected by the extension filter
contribute to neither total and leave the state untouched.  Without the
proviso the amounts can differ, because an earlier rename can overwrite
the file before its own turn (see the counterexample). -/
theorem c5_ledger (eSize : Entry → Nat) (enc : Entry → Option Entry)
    (names : List String) (st : RunState) (hnd : names.Nodup)
    (hcol : ∀ f ∈ names, isImageFile f = true →
      targetName f = f ∨ targetName f ∉ names) :
    ((runLoop eSize enc names st).totalOriginal =
        st.totalOriginal + (names.map (origContribution eSize st.media)).sum ∧
      (runLoop eSize enc names st).totalCompressed =
        st.totalCompressed + (names.map (compContribution eSize enc st.media)).sum) ∧
    ∀ g, isImageFile g = false → processFile eSize enc st g = st :=
  ⟨runLoop_totals eSize enc st.media names st hnd (fun _ _ => rfl) hcol,
    fun g hg => processFile_not_image eSize enc st g hg⟩

/-- C5 witness: over the listing a.png, b.txt, c.jpg with original sizes
10 and 20, the original total ends at 30 and the compressed total at
110 + 120 = 230; the rejected b.txt contributes nothing. -/
theorem c5_ledger_witness :
    (runLoop demoSize demoEncode ["a.png", "b.txt", "c.jpg"]
        (initState [("a.png", Entry.image 10), ("c.jpg", Entry.image 20)] [])).totalOriginal
        = 30 ∧
      (runLoop demoSize demoEncode ["a.png", "b.txt", "c.jpg"]
        (initState [("a.png", Entry.image 10), ("c.jpg", Entry.image 20)] [])).totalCompressed
        = 230 := by
  have hthm := c5_ledger demoSize demoEncode ["a.png", "b.txt", "c.jpg"]
    (initState [("a.png", Entry.image 10), ("c.jpg", Entry.image 20)] [])
    (by decide) (by decide)
  exact ⟨hthm.1.1.trans (by decide), hthm.1.2.trans (by decide)⟩

/-- C5 counterexample: with media X.png (size 1) and X.jpg (size 2)
listed in that order, processing X.png first deletes X.png and writes
its re-encoding (size 101) onto X.jpg, so when X.jpg's turn comes the
size read for it is 101, and the original total ends at 102 instead of
the sum 3 of the two original byte sizes. -/
theorem c5_counterexample :
    (runLoop demoSize demoEncode ["X.png", "X.jpg"]
        (initState [("X.png", Entry.image 1), ("X.jpg", Entry.image 2)] [])).totalOriginal
        = 102 ∧
      demoSize (Entry.image 1) + demoSize (Entry.image 2) = 3 ∧ (102 : Nat) ≠ 3 := by
  refine ⟨by decide, by decide, by decide⟩

/-- C6, confirmed: for every accepted image whose decode, transform or
encode raises, the exception is absorbed: an error event naming the
file is recorded, the media directory and the other files are untouched
(the failure is raised before the rename block, so in particular a file
whose name would not change is left unmodified on disk), both totals
receive the original size read for that file, and the loop goes on to
fold the remaining listing entries. -/
theorem c6_error_isolation (eSize : Entry → Nat) (enc : Entry → Option Entry)
    (st : RunState) (f : String) (c : Entry) (rest : List String)
    (h1 : isImageFile f = true) (h2 : lookupEntry st.media f = some c)
    (h3 : enc c = none) :
    processFile eSize enc st f =
      { st with
        totalOriginal := st.totalOriginal + eSize c,
        totalCompressed := st.totalCompressed + eSize c,
        trace := st.trace ++ [Event.errorLine f] } ∧
    runLoop eSize enc (f :: rest) st =
      runLoop eSize enc rest (processFile eSize enc st f) :=
  ⟨processFile_err eSize enc st f c h1 h2 h3, rfl⟩

/-- C6 witness: a corrupt bad.png of size 7 leaves the directory
unchanged, adds 7 to both totals, records the error line naming it, and
the run continues with the rest of the listing. -/
theorem c6_error_isolation_witness :
    processFile demoSize (fun _ => none)
        (initState [("bad.png", Entry.image 7)] []) "bad.png" =
      RunState.mk [("bad.png", Entry.image 7)] [] 7 7 [Event.errorLine "bad.png"] ∧
    runLoop demoSize (fun _ => none) ["bad.png", "b.jpg"]
        (initState [("bad.png", Entry.image 7)] []) =
      runLoop demoSize (fun _ => none) ["b.jpg"]
        (processFile demoSize (fun _ => none)
          (initState [("bad.png", Entry.image 7)] []) "bad.png") :=
  c6_error_isolation demoSize (fun _ => none) (initState [("bad.png", Entry.image 7)] [])
    "bad.png" (Entry.image 7) ["b.jpg"] (by decide) (by decide) rfl

/-- C7, confirmed: for an accepted image whose target filename differs
from its own, the successful step appends exactly the events remove,
reference-rewrite, save, in that order, so the new file is written only
after the deletion and the reference rewrite. -/
theorem c7_rename_order (eSize : Entry → Nat) (enc : Entry → Option Entry)
    (st : RunState) (f : String) (c c' : Entry)
    (h1 : isImageFile f = true) (h2 : lookupEntry st.media f = some c)
    (h3 : enc c = some c') (h4 : targetName f ≠ f) :
    (processFile eSize enc st f).trace =
      st.trace ++
        [Event.removeFile f, Event.updateRefs f (targetName f),
         Event.saveFile (targetName f)] := by
  rw [processFile_rename eSize enc st f c c' h1 h2 h3 h4]

/-- C7 witness: processing pic.png records delete, rewrite, save in that
order. -/
theorem c7_rename_order_witness :
    (processFile demoSize demoEncode (initState [("pic.png", Entry.image 3)] [])
        "pic.png").trace =
      [] ++ [Event.removeFile "pic.png", Event.updateRefs "pic.png" (targetName "pic.png"),
        Event.saveFile (targetName "pic.png")] :=
  c7_rename_order demoSize demoEncode (initState [("pic.png", Entry.image 3)] [])
    "pic.png" (Entry.image 3) (Entry.image 103) (by decide) (by decide) rfl (by decide)

/-- C9, confirmed: X.png and X.jpg both target X.jpg; in the package
holding both, whichever is processed later overwrites the other's
output, the result keeps a single media entry in their place, and its
content depends on the listing order (201 for png-first, 101 for
jpg-first under the demonstration oracles). -/
theorem c9_basename_collision :
    targetName "X.png" = "X.jpg" ∧ targetName "X.jpg" = "X.jpg" ∧
      (compress_docx_images demoSize demoEncode collisionPkgA).map Prod.fst =
        some [("word/document.xml", Entry.text "X.jpg X.jpg"),
          ("word/media/X.jpg", Entry.image 201)] ∧
      (compress_docx_images demoSize demoEncode collisionPkgB).map Prod.fst =
        some [("word/document.xml", Entry.text "X.jpg X.jpg"),
          ("word/media/X.jpg", Entry.image 101)] ∧
      Entry.image 201 ≠ Entry.image 101 := by
  refine ⟨by decide, by decide, by decide, by decide, by decide⟩

/-- C10, confirmed: a successful re-encoding is stored at the target
name unconditionally, with no size comparison anywhere in the statement;
concretely a 5-byte a.jpg is replaced by its 105-byte re-encoding and
the compressed total 105 exceeds the original total 5. -/
theorem c10_no_size_guard :
    (∀ (eSize : Entry → Nat) (enc : Entry → Option Entry) (st : RunState)
        (f : String) (c c' : Entry), isImageFile f = true →
        lookupEntry st.media f = some c → enc c = some c' →
        lookupEntry (processFile eSize enc st f).media (targetName f) = some c') ∧
      (runLoop demoSize demoEncode ["a.jpg"]
          (initState [("a.jpg", Entry.image 5)] [])).totalOriginal = 5 ∧
      (runLoop demoSize demoEncode ["a.jpg"]
          (initState [("a.jpg", Entry.image 5)] [])).totalCompressed = 105 ∧
      (5 : Nat) < 105 ∧
      (runLoop demoSize demoEncode ["a.jpg"]
          (initState [("a.jpg", Entry.image 5)] [])).media =
        [("a.jpg", Entry.image 105)] := by
  refine ⟨?_, by decide, by decide, by decide, by decide⟩
  intro eSize enc st f c c' h1 h2 h3
  by_cases h4 : targetName f = f
  · rw [processFile_keepName eSize enc st f c c' h1 h2 h3 h4]
    show lookupEntry (setEntry st.media f c') (targetName f) = some c'
    rw [h4]
    exact lookupEntry_setEntry_self st.media f c'
  · rw [processFile_rename eSize enc st f c c' h1 h2 h3 h4]
    exact lookupEntry_setEntry_self _ _ _

/-- C10 witness: the oracle re-encodes the 4-byte b.png into a 104-byte
file and the step stores it at b.jpg without any size check. -/
theorem c10_no_size_guard_witness :
    lookupEntry (processFile demoSize demoEncode
        (initState [("b.png", Entry.image 4)] []) "b.png").media (targetName "b.png") =
      some (Entry.image 104) :=
  c10_no_size_guard.1 demoSize demoEncode (initState [("b.png", Entry.image 4)] [])
    "b.png" (Entry.image 4) (Entry.image 104) (by decide) (by decide) rfl
